import Mathlib

/-!
Verification of the blueprint construction and image-caching engine of
`internal/docker/builder.go` (the complement repository).

The Go code is shallowly embedded:
* Go `map[string]string` values are modelled as association lists
  (`List (String × String)`) updated by `mapSet`, which overwrites the
  entry when the key is present and appends otherwise; lookup (`mapGet`)
  returns the first match, which agrees with Go map lookup because
  `mapSet` keeps keys unique.
* `strings.HasPrefix` / `strings.TrimPrefix` are modelled on the
  character data of `String` (`goHasPrefix`, `goTrimPrefix`).
* Calls into the docker runtime and the instruction runner are external
  effects; each embedded function takes their outcomes as explicit
  parameters and additionally returns the trace of runtime calls it
  performs as a `List Event`, so that ordering and resource claims can
  be stated about the trace.
* Go's `(value, error)` returns become `Except String α` when exactly
  one of the two is set, and `Option α × Option String` for
  `deployImage`, which can return both a deployment and an error.
-/

/-! ## Data model (`internal/b`, as used by builder.go) -/

structure ApplicationService where
  ID : String
  HSToken : String
  ASToken : String
  URL : String
  SenderLocalpart : String
  RateLimited : Bool
  deriving DecidableEq, Repr

structure Homeserver where
  Name : String
  ApplicationServices : List ApplicationService
  deriving DecidableEq, Repr

structure Blueprint where
  Name : String
  Homeservers : List Homeserver
  deriving DecidableEq, Repr

/-! ## Go map and string primitives -/

/-- Go map write `m[k] = v`: overwrite if present, else add. -/
def mapSet (m : List (String × String)) (k v : String) : List (String × String) :=
  if m.any (fun kv => kv.1 == k) then
    m.map (fun kv => if kv.1 == k then (k, v) else kv)
  else
    m ++ [(k, v)]

/-- Go map lookup `m[k]` returning presence. -/
def mapGet (m : List (String × String)) (k : String) : Option String :=
  (m.find? (fun kv => kv.1 == k)).map (fun kv => kv.2)

/-- Go map lookup with the zero value `""` for missing keys. -/
def mapGetD (m : List (String × String)) (k : String) : String :=
  (mapGet m k).getD ""

/-- Key-membership test for the association-list map. -/
def mapHasKey (m : List (String × String)) (k : String) : Bool :=
  m.any (fun kv => kv.1 == k)

/-- `strings.HasPrefix s pre`. -/
def goHasPrefix (s pre : String) : Bool :=
  pre.data.isPrefixOf s.data

/-- `strings.TrimPrefix s pre`. -/
def goTrimPrefix (s pre : String) : String :=
  if goHasPrefix s pre then String.mk (s.data.drop pre.data.length) else s

/-! ## Label codec (builder.go lines 601-644) -/

/-- One iteration of the `tokensFromLabels` loop. -/
def tokenDecodeStep (m : List (String × String)) (kv : String × String) :
    List (String × String) :=
  if goHasPrefix kv.1 "access_token_" then
    mapSet m (goTrimPrefix kv.1 "access_token_") kv.2
  else m

/-- `tokensFromLabels`: filter labels by the `access_token_` prefix and
strip it, rebuilding the credential map. -/
def tokensFromLabels (labels : List (String × String)) : List (String × String) :=
  labels.foldl tokenDecodeStep []

/-- `labelsForTokens`: prefix each credential key with `access_token_`. -/
def labelsForTokens (userIDToToken : List (String × String)) : List (String × String) :=
  userIDToToken.foldl (fun labels kv => mapSet labels ("access_token_" ++ kv.1) kv.2) []

/-- One iteration of the `asIDToRegistrationFromLabels` loop. -/
def asDecodeStep (m : List (String × String)) (kv : String × String) :
    List (String × String) :=
  if goHasPrefix kv.1 "application_service_" then
    mapSet m (goTrimPrefix kv.1 "application_service_") kv.2
  else m

/-- `asIDToRegistrationFromLabels`: filter labels by the
`application_service_` prefix and strip it. -/
def asIDToRegistrationFromLabels (labels : List (String × String)) : List (String × String) :=
  labels.foldl asDecodeStep []

/-- The fixed HS token written over every application service
(builder.go line 636). -/
def fixedHSToken : String :=
  "27562ff25dd2eb69361ac1eb67e3a3cd38ab9509c1483234ec8dfec0f247c73e"

/-- The fixed AS token written over every application service
(builder.go line 637). -/
def fixedASToken : String :=
  "f872531e387377686989e792c723e646f7823643e747a0521e94770a721f40fc"

/-- `generateASRegistrationYaml` (builder.go lines 422-433): the
registration document, rendered by string concatenation.  Go's
`fmt.Sprintf("%v", bool)` renders `true` / `false`. -/
def generateASRegistrationYaml (as : ApplicationService) : String :=
  "id: " ++ as.ID ++ "\n" ++
  "hs_token: " ++ as.HSToken ++ "\n" ++
  "as_token: " ++ as.ASToken ++ "\n" ++
  "url: '" ++ as.URL ++ "'\n" ++
  "sender_localpart: " ++ as.SenderLocalpart ++ "\n" ++
  "rate_limited: " ++ (if as.RateLimited then "true" else "false") ++ "\n" ++
  "namespaces:\n" ++
  "  users: []\n" ++
  "  rooms: []\n" ++
  "  aliases: []\n"

/-- One iteration of the `labelsForApplicationServices` loop
(builder.go lines 634-642): overwrite both tokens of the application
service with the fixed constants, then write the registration-document
label and the extra `access_token_@<sender>:<hs name>` credential
label. -/
def asLabelStep (hsName : String) (labels : List (String × String))
    (as0 : ApplicationService) : List (String × String) :=
  let as : ApplicationService :=
    { as0 with HSToken := fixedHSToken, ASToken := fixedASToken }
  mapSet
    (mapSet labels ("application_service_" ++ as.ID) (generateASRegistrationYaml as))
    ("access_token_@" ++ as.SenderLocalpart ++ ":" ++ hsName) as.ASToken

/-- `labelsForApplicationServices` (builder.go lines 630-644). -/
def labelsForApplicationServices (hs : Homeserver) : List (String × String) :=
  hs.ApplicationServices.foldl (asLabelStep hs.Name) []

/-- Modelled from the spec: the application-service half of the Label
Codec's `Encode`, which "prefixes … AS ids with `application_service_`".
builder.go performs this prefixing inline on a `Homeserver` value (line
639); the codec law of the spec is stated on a registration map
directly, so the prefixing is lifted to such a map here. -/
def labelsForASRegistrations (asMap : List (String × String)) : List (String × String) :=
  asMap.foldl (fun labels kv => mapSet labels ("application_service_" ++ kv.1) kv.2) []

/-- One map write `m[kv.1] = kv.2` as a fold step. -/
def mapSetStep (m : List (String × String)) (kv : String × String) :
    List (String × String) :=
  mapSet m kv.1 kv.2

/-- The merge loop of the commit pass (builder.go lines 283-285):
`for k, v := range asLabels { labels[k] = v }`. -/
def mergeLabels (m1 m2 : List (String × String)) : List (String × String) :=
  m2.foldl mapSetStep m1

/-- The codec's `Encode(credentials, asRegistrations)`: credential keys
prefixed with `access_token_`, AS ids with `application_service_`, both
merged into one flat label map as the commit pass does. -/
def encodeLabels (creds asMap : List (String × String)) : List (String × String) :=
  mergeLabels (labelsForTokens creds) (labelsForASRegistrations asMap)

/-- The codec's `Decode(flatMap)`: both prefix-filtered maps. -/
def decodeLabels (labels : List (String × String)) :
    List (String × String) × List (String × String) :=
  (tokensFromLabels labels, asIDToRegistrationFromLabels labels)

/-- The final labels attached at commit time (builder.go lines 279-285):
the encoded access tokens of the instruction runner merged with the
application-service labels of the homeserver. -/
def commitLabels (tokens : List (String × String)) (hs : Homeserver) :
    List (String × String) :=
  mergeLabels (labelsForTokens tokens) (labelsForApplicationServices hs)

/-! ## Runtime-call traces

Each embedded builder function returns, besides its Go return value, the
ordered list of docker-runtime calls it performs. -/

inductive Event where
  | createNetwork (blueprintName : String)
  | printLogs (containerID contextStr : String)
  | kill (containerID : String)
  | containerCommit (containerID contextStr : String) (labels : List (String × String))
  | imageList (attempt : Nat)
  | sleepMs (ms : Nat)
  | removeNetworksCall
  | containerRemove (id : String)
  | imageRemove (id : String)
  | networkRemove (id : String)
  deriving DecidableEq, Repr

/-- The `result` struct of builder.go (lines 663-668): outcome of
`constructHomeserver` for one homeserver. -/
structure Result where
  err : Option String
  containerID : String
  contextStr : String
  homeserver : Homeserver
  deriving DecidableEq, Repr

/-! ## CreateNetwork (builder.go lines 556-577) -/

/-- The docker `NetworkCreate` response: an identifier and a warning. -/
structure NetworkCreateResponse where
  ID : String
  Warning : String
  deriving DecidableEq, Repr

/-- `CreateNetwork`, parametrised by the runtime's `NetworkCreate`
outcome.  The warning log is a no-op in the embedding. -/
def CreateNetwork (resp : Except String NetworkCreateResponse)
    (blueprintName : String) : Except String String :=
  match resp with
  | .error e => .error (blueprintName ++ ": failed to create docker network. " ++ e)
  | .ok nw =>
    if nw.Warning ≠ "" ∧ nw.ID = "" then
      .error (blueprintName ++ ": fatal warning while creating docker network. " ++ nw.Warning)
    else if nw.ID = "" then
      .error (blueprintName ++ ": unexpected empty ID while creating networkID")
    else
      .ok nw.ID

/-! ## Blueprint construction (builder.go lines 246-305)

`construct` is embedded over the abstract outcomes of its external
calls: the network creation, the per-homeserver `constructHomeserver`
results (deployment + instruction run, in homeserver order), the
instruction runner's recorded access tokens per homeserver name, and
the per-container `ContainerCommit` outcome. -/

/-- The homeserver loop of `construct` (lines 254-272): collect errors
and dump logs for failed homeservers that do have a container. -/
def constructLoopPhase : List Result → List String × List Event
  | [] => ([], [])
  | res :: rest =>
    let tail := constructLoopPhase rest
    ((match res.err with
      | some e => e :: tail.1
      | none => tail.1),
     (if res.err.isSome && res.containerID != "" then
        Event.printLogs res.containerID res.contextStr :: tail.2
      else tail.2))

/-- The commit pass of `construct` (lines 275-303): skip results that
carry an error; for the rest, build the final labels and call
`ContainerCommit`, collecting any commit error. -/
def constructCommitPhase (runAccessTokens : String → List (String × String))
    (commitOutcome : String → Option String) : List Result → List String × List Event
  | [] => ([], [])
  | res :: rest =>
    let tail := constructCommitPhase runAccessTokens commitOutcome rest
    if res.err.isSome then tail
    else
      let labels := commitLabels (runAccessTokens res.homeserver.Name) res.homeserver
      match commitOutcome res.containerID with
      | some e =>
        ((res.contextStr ++ " : failed to ContainerCommit: " ++ e) :: tail.1,
         Event.containerCommit res.containerID res.contextStr labels :: tail.2)
      | none =>
        (tail.1, Event.containerCommit res.containerID res.contextStr labels :: tail.2)

/-- `construct`: network creation, the homeserver loop, the commit
pass, then the deferred unconditional kills, which run last-in
first-out once the function returns. -/
def construct (blueprintName : String)
    (networkOutcome : Except String NetworkCreateResponse)
    (runAccessTokens : String → List (String × String))
    (commitOutcome : String → Option String)
    (hsResults : List Result) : List String × List Event :=
  match CreateNetwork networkOutcome blueprintName with
  | .error e => ([e], [Event.createNetwork blueprintName])
  | .ok _networkID =>
    let lp := constructLoopPhase hsResults
    let cp := constructCommitPhase runAccessTokens commitOutcome hsResults
    (lp.1 ++ cp.1,
     Event.createNetwork blueprintName :: lp.2 ++ cp.2 ++
       hsResults.reverse.map (fun r => Event.kill r.containerID))

/-! ## Fleet orchestration (builder.go lines 198-243)

`ConstructBlueprints` is embedded from the point where every
blueprint's error slice has been collected from the completion channel
(the channel delivers exactly one slice per blueprint, in arbitrary
order, which the parameter `constructErrs` abstracts), with the
label-filtered `ImageList` outcome of each polling attempt supplied by
`listOutcome`. -/

/-- The bounded image-listing poll (lines 221-235): up to `fuel`
attempts; a listing error aborts; a count below `expected` sleeps 100ms
and retries; otherwise the images were found. -/
def pollImages (listOutcome : Nat → Except String Nat) (expected : Nat) :
    Nat → Nat → List Event × Except String Bool
  | _, 0 => ([], .ok false)
  | i, fuel + 1 =>
    match listOutcome i with
    | .error e => ([Event.imageList i], .error e)
    | .ok count =>
      if count < expected then
        let tail := pollImages listOutcome expected (i + 1) fuel
        (Event.imageList i :: Event.sleepMs 100 :: tail.1, tail.2)
      else
        ([Event.imageList i], .ok true)

/-- `ConstructBlueprints` after the fan-in: flatten the error slices;
any error is returned at once (first one), before any polling.
Otherwise poll the listing up to 50 times, abort on a listing error,
and only then call `removeNetworks` — on both the converged and the
exhausted path — failing afterwards if the images were never found. -/
def ConstructBlueprints (constructErrs : List (List String))
    (listOutcome : Nat → Except String Nat) : List Event × Option String :=
  let errs := constructErrs.foldl (fun acc es => acc ++ es) []
  match errs with
  | e :: _ => ([], some e)
  | [] =>
    let p := pollImages listOutcome constructErrs.length 0 50
    match p.2 with
    | .error e => (p.1, some e)
    | .ok found =>
      (p.1 ++ [Event.removeNetworksCall],
       if found then none
       else some "failed to find built images via ImageList: did they all build ok?")

/-! ## Single-server deployment (builder.go lines 444-552) -/

/-- `HomeserverDeployment` (as filled in by `deployImage`). -/
structure HomeserverDeployment where
  BaseURL : String
  FedBaseURL : String
  ContainerID : String
  AccessTokens : List (String × String)
  ApplicationServices : List (String × String)
  deriving DecidableEq, Repr

/-- The part of `ContainerInspect`'s response that `deployImage` reads:
the published ports (port spec, e.g. `8008/tcp`, to the first host port
of its binding list) and the container's labels. -/
structure InspectData where
  Ports : List (String × String)
  Labels : List (String × String)
  deriving DecidableEq, Repr

/-- `HostnameRunningDocker` outside CI (builder.go line 48). -/
def HostnameRunningDocker : String := "localhost"

/-- `endpoints` (builder.go lines 646-661): look up the host ports
published for the two fixed internal ports and build both base URLs. -/
def endpoints (p : List (String × String)) (csPort ssPort : Nat) :
    Except String (String × String) :=
  match mapGet p (toString csPort ++ "/tcp") with
  | none => .error ("port " ++ toString csPort ++ "/tcp not exposed")
  | some csHostPort =>
    match mapGet p (toString ssPort ++ "/tcp") with
    | none => .error ("port " ++ toString ssPort ++ "/tcp not exposed")
    | some ssHostPort =>
      .ok ("http://" ++ HostnameRunningDocker ++ ":" ++ csHostPort,
           "https://" ++ HostnameRunningDocker ++ ":" ++ ssHostPort)

/-- The `/versions` poll of `deployImage` (lines 520-535): `lastErr`
threads through the loop; an HTTP error or a non-200 status records a
new `lastErr`, sleeps 50ms and retries; a 200 clears it and breaks.
`httpGet i` is the outcome of the GET of attempt `i` (error message or
status code). -/
def pollVersions (httpGet : Nat → Except String Nat) (versionsURL : String) :
    Nat → Nat → Option String → Option String
  | _, 0, lastErr => lastErr
  | i, fuel + 1, _ =>
    match httpGet i with
    | .error e =>
      pollVersions httpGet versionsURL (i + 1) fuel
        (some ("GET " ++ versionsURL ++ " => error: " ++ e))
    | .ok status =>
      if status ≠ 200 then
        pollVersions httpGet versionsURL (i + 1) fuel
          (some ("GET " ++ versionsURL ++ " => HTTP " ++ toString status))
      else none

/-- `deployImage`, parametrised by the outcomes of the runtime calls it
makes: `ContainerCreate` (yields the container id), `ContainerStart`,
`ContainerInspect`, and the HTTP GETs of the version poll.  Failures at
create/start/inspect/endpoints return no deployment; after that, the
deployment is always built, and handed back even together with the
terminal poll error. -/
def deployImage (createOutcome : Except String String)
    (startOutcome : String → Option String)
    (inspectOutcome : String → Except String InspectData)
    (httpGet : Nat → Except String Nat)
    (imageID contextStr : String)
    (versionCheckIterations : Nat) :
    Option HomeserverDeployment × Option String :=
  match createOutcome with
  | .error e => (none, some e)
  | .ok containerID =>
    match startOutcome containerID with
    | some e => (none, some e)
    | none =>
      match inspectOutcome containerID with
      | .error e => (none, some e)
      | .ok inspect =>
        match endpoints inspect.Ports 8008 8448 with
        | .error e => (none, some (contextStr ++ " : image " ++ imageID ++ " : " ++ e))
        | .ok (baseURL, fedBaseURL) =>
          let versionsURL := baseURL ++ "/_matrix/client/versions"
          let lastErr := pollVersions httpGet versionsURL 0 versionCheckIterations none
          let d : HomeserverDeployment :=
            { BaseURL := baseURL
              FedBaseURL := fedBaseURL
              ContainerID := containerID
              AccessTokens := tokensFromLabels inspect.Labels
              ApplicationServices := asIDToRegistrationFromLabels inspect.Labels }
          match lastErr with
          | some e => (some d, some (contextStr ++ ": failed to check server is up. " ++ e))
          | none => (some d, none)

/-! ## Cleanup (builder.go lines 97-180)

Each removal pass lists its labelled resources (outcome supplied as a
parameter) and removes them one by one, returning at the first removal
error; `Cleanup` runs the three passes unconditionally, logging and
swallowing each pass's error. -/

/-- A listed image: identifier and labels. -/
structure ImageSummary where
  ID : String
  Labels : List (String × String)
  deriving DecidableEq, Repr

/-- The loop of `removeContainers` (lines 171-178): remove each listed
container, aborting the pass at the first failure. -/
def removeContainersLoop (rm : String → Option String) :
    List String → List Event × Option String
  | [] => ([], none)
  | c :: rest =>
    match rm c with
    | some e => ([Event.containerRemove c], some e)
    | none =>
      let tail := removeContainersLoop rm rest
      (Event.containerRemove c :: tail.1, tail.2)

/-- `removeContainers` (lines 163-180). -/
def removeContainers (listOutcome : Except String (List String))
    (rm : String → Option String) : List Event × Option String :=
  match listOutcome with
  | .error e => ([], some e)
  | .ok cs => removeContainersLoop rm cs

/-- The loop of `removeImages` (lines 138-157): skip images whose
`complement_blueprint` label is in the keep-list, remove the rest,
aborting the pass at the first failure. -/
def removeImagesLoop (keepBlueprints : List String) (rm : String → Option String) :
    List ImageSummary → List Event × Option String
  | [] => ([], none)
  | img :: rest =>
    let bprintName := mapGetD img.Labels "complement_blueprint"
    if keepBlueprints.contains bprintName then
      removeImagesLoop keepBlueprints rm rest
    else
      match rm img.ID with
      | some e => ([Event.imageRemove img.ID], some e)
      | none =>
        let tail := removeImagesLoop keepBlueprints rm rest
        (Event.imageRemove img.ID :: tail.1, tail.2)

/-- `removeImages` (lines 131-160). -/
def removeImages (listOutcome : Except String (List ImageSummary))
    (keepBlueprints : List String) (rm : String → Option String) :
    List Event × Option String :=
  match listOutcome with
  | .error e => ([], some e)
  | .ok imgs => removeImagesLoop keepBlueprints rm imgs

/-- The loop of `removeNetworks` (lines 120-125): remove each listed
network, aborting the pass at the first failure. -/
def removeNetworksLoop (rm : String → Option String) :
    List String → List Event × Option String
  | [] => ([], none)
  | nw :: rest =>
    match rm nw with
    | some e => ([Event.networkRemove nw], some e)
    | none =>
      let tail := removeNetworksLoop rm rest
      (Event.networkRemove nw :: tail.1, tail.2)

/-- `removeNetworks` (lines 113-128). -/
def removeNetworks (listOutcome : Except String (List String))
    (rm : String → Option String) : List Event × Option String :=
  match listOutcome with
  | .error e => ([], some e)
  | .ok nws => removeNetworksLoop rm nws

/-- `Cleanup` (lines 97-110): containers, then images, then networks;
every pass error is logged and swallowed, never escalated, so the next
pass always runs. -/
def Cleanup (containersList : Except String (List String))
    (rmContainer : String → Option String)
    (imagesList : Except String (List ImageSummary))
    (keepBlueprints : List String)
    (rmImage : String → Option String)
    (networksList : Except String (List String))
    (rmNetwork : String → Option String) : List Event :=
  (removeContainers containersList rmContainer).1 ++
  (removeImages imagesList keepBlueprints rmImage).1 ++
  (removeNetworks networksList rmNetwork).1

/-! ## Helper lemmas: prefixes -/

theorem isPrefixOf_false_of_take_ne (p q s : List Char) (n : Nat)
    (h1 : n ≤ p.length) (h2 : n ≤ q.length) (h3 : p.take n ≠ q.take n) :
    p.isPrefixOf (q ++ s) = false := by
  apply Bool.eq_false_iff.mpr
  intro hpre
  rw [List.isPrefixOf_iff_prefix] at hpre
  obtain ⟨t, ht⟩ := hpre
  apply h3
  have h := congrArg (List.take n) ht
  rwa [List.take_append_of_le_length h1, List.take_append_of_le_length h2] at h

theorem append_ne_of_take_ne (p q a b : List Char) (n : Nat)
    (h1 : n ≤ p.length) (h2 : n ≤ q.length) (h3 : p.take n ≠ q.take n) :
    p ++ a ≠ q ++ b := by
  intro h
  apply h3
  have h' := congrArg (List.take n) h
  rwa [List.take_append_of_le_length h1, List.take_append_of_le_length h2] at h'

theorem goHasPrefix_append_self (p s : String) : goHasPrefix (p ++ s) p = true := by
  simp [goHasPrefix, String.data_append, List.isPrefixOf_iff_prefix, List.prefix_append]

theorem goTrimPrefix_append_self (p s : String) : goTrimPrefix (p ++ s) p = s := by
  rw [goTrimPrefix, if_pos (goHasPrefix_append_self p s), String.data_append,
    List.drop_left]

/-- No `access_token_…` label key is an `application_service_…` label
key: the two reserved prefixes differ at their second character. -/
theorem accessKey_ne_appServiceKey (a b : String) :
    "access_token_" ++ a ≠ "application_service_" ++ b := by
  intro h
  have hd := congrArg String.data h
  rw [String.data_append, String.data_append] at hd
  exact append_ne_of_take_ne _ _ _ _ 2 (by decide) (by decide) (by decide) hd

theorem goHasPrefix_appService_accessToken (b : String) :
    goHasPrefix ("application_service_" ++ b) "access_token_" = false := by
  rw [goHasPrefix, String.data_append]
  exact isPrefixOf_false_of_take_ne _ _ _ 2 (by decide) (by decide) (by decide)

theorem goHasPrefix_accessToken_appService (a : String) :
    goHasPrefix ("access_token_" ++ a) "application_service_" = false := by
  rw [goHasPrefix, String.data_append]
  exact isPrefixOf_false_of_take_ne _ _ _ 2 (by decide) (by decide) (by decide)

/-! ## Helper lemmas: association-list maps -/

theorem mapSet_of_hasKey_false (m : List (String × String)) (k v : String)
    (h : mapHasKey m k = false) : mapSet m k v = m ++ [(k, v)] := by
  rw [mapHasKey] at h
  rw [mapSet, if_neg]
  simp [h]

theorem mapHasKey_append (m1 m2 : List (String × String)) (k : String) :
    mapHasKey (m1 ++ m2) k = (mapHasKey m1 k || mapHasKey m2 k) := by
  simp [mapHasKey, List.any_append]

theorem mapGet_overwrite (m : List (String × String)) (k v : String)
    (h : (m.any fun kv => kv.1 == k) = true) :
    mapGet (m.map fun kv => if kv.1 == k then (k, v) else kv) k = some v := by
  induction m with
  | nil => simp at h
  | cons hd tl ih =>
    simp only [List.map_cons]
    by_cases hk : hd.1 = k
    · rw [if_pos (beq_iff_eq.mpr hk), mapGet, List.find?_cons_of_pos _ (by simp)]
      rfl
    · have hk' : (hd.1 == k) = false := beq_eq_false_iff_ne.mpr hk
      have htl : (tl.any fun kv => kv.1 == k) = true := by
        simpa [List.any_cons, hk'] using h
      rw [if_neg (by simp [hk]), mapGet, List.find?_cons_of_neg _ (by simp [hk])]
      exact ih htl

theorem mapGet_mapSet_self (m : List (String × String)) (k v : String) :
    mapGet (mapSet m k v) k = some v := by
  rw [mapSet]
  split
  next h => exact mapGet_overwrite m k v h
  next h =>
    have h' : (m.find? fun kv => kv.1 == k) = none := by
      apply List.find?_eq_none.mpr
      intro x hx hpx
      exact h (List.any_eq_true.mpr ⟨x, hx, hpx⟩)
    simp [mapGet, List.find?_append, h', List.find?_cons]

theorem mapGet_overwrite_ne (m : List (String × String)) (k k' v : String)
    (hne : k ≠ k') :
    mapGet (m.map fun kv => if kv.1 == k then (k, v) else kv) k' = mapGet m k' := by
  induction m with
  | nil => rfl
  | cons hd tl ih =>
    simp only [List.map_cons]
    by_cases hk : hd.1 = k
    · rw [if_pos (beq_iff_eq.mpr hk), mapGet, List.find?_cons_of_neg _ (by simp [hne]),
        mapGet, List.find?_cons_of_neg _ (by simp [hk, hne])]
      exact ih
    · rw [if_neg (by simp [hk])]
      by_cases hq : hd.1 = k'
      · rw [mapGet, List.find?_cons_of_pos _ (by simp [hq]),
          mapGet, List.find?_cons_of_pos _ (by simp [hq])]
      · rw [mapGet, List.find?_cons_of_neg _ (by simp [hq]),
          mapGet, List.find?_cons_of_neg _ (by simp [hq])]
        exact ih

theorem mapGet_mapSet_ne (m : List (String × String)) (k k' v : String)
    (hne : k ≠ k') :
    mapGet (mapSet m k v) k' = mapGet m k' := by
  rw [mapSet]
  split
  next h =>
    exact mapGet_overwrite_ne m k k' v hne
  next h =>
    have hkv : ((k, v).1 == k') = false := beq_eq_false_iff_ne.mpr hne
    simp [mapGet, List.find?_append, List.find?_cons, hkv]

theorem mapSet_ne_nil (m : List (String × String)) (k v : String) :
    mapSet m k v ≠ [] := by
  rw [mapSet]
  split
  next h =>
    intro hcon
    cases m with
    | nil => simp at h
    | cons hd tl => simp at hcon
  next h => simp

/-- The key written by `mapSet` is present afterwards. -/
theorem mapHasKey_mapSet_self (m : List (String × String)) (k v : String) :
    mapHasKey (mapSet m k v) k = true := by
  rw [mapSet]
  split
  next h =>
    simp only [mapHasKey] at h ⊢
    obtain ⟨x, hx, hpx⟩ := List.any_eq_true.mp h
    apply List.any_eq_true.mpr
    exact ⟨(k, v), List.mem_map.mpr ⟨x, hx, by simp [hpx]⟩, by simp⟩
  next h =>
    simp [mapHasKey, List.any_append]

/-- Overwriting leaves the key list unchanged. -/
theorem keys_mapSet_of_hasKey (m : List (String × String)) (k v : String)
    (h : mapHasKey m k = true) :
    (mapSet m k v).map Prod.fst = m.map Prod.fst := by
  rw [mapHasKey] at h
  rw [mapSet, if_pos h, List.map_map]
  apply List.map_congr_left
  intro kv _
  by_cases hk : kv.1 = k
  · simp [hk]
  · simp [hk]

/-- `mapSet` preserves key uniqueness. -/
theorem nodupKeys_mapSet (m : List (String × String)) (k v : String)
    (h : (m.map Prod.fst).Nodup) :
    ((mapSet m k v).map Prod.fst).Nodup := by
  by_cases hk : mapHasKey m k = true
  · rwa [keys_mapSet_of_hasKey m k v hk]
  · have hk' : mapHasKey m k = false := Bool.eq_false_iff.mpr hk
    rw [mapSet_of_hasKey_false m k v hk', List.map_append]
    rw [List.nodup_append]
    refine ⟨h, by simp, ?_⟩
    intro a ha hb
    simp at hb
    subst hb
    rw [mapHasKey] at hk'
    obtain ⟨kv, hkv, hfst⟩ := List.mem_map.mp ha
    have := List.any_eq_false.mp hk' kv hkv
    simp at this
    exact this (hfst ▸ rfl)

/-! ## Fold characterizations of the codec -/

/-- Appending into a map by `mapSet` is plain list append when every new
key is fresh and the new keys are mutually distinct. -/
theorem foldl_mapSetStep_append (l : List (String × String)) :
    ∀ acc : List (String × String), (l.map Prod.fst).Nodup →
      (∀ kv ∈ l, mapHasKey acc kv.1 = false) →
      l.foldl mapSetStep acc = acc ++ l := by
  induction l with
  | nil => intro acc _ _; simp
  | cons hd tl ih =>
    intro acc hnd hfresh
    rw [List.foldl_cons, mapSetStep,
      mapSet_of_hasKey_false acc hd.1 hd.2 (hfresh hd (List.mem_cons_self hd tl))]
    have hnd' : (tl.map Prod.fst).Nodup := (List.nodup_cons.mp (by simpa using hnd)).2
    have hni : hd.1 ∉ tl.map Prod.fst := (List.nodup_cons.mp (by simpa using hnd)).1
    rw [ih (acc ++ [(hd.1, hd.2)]) hnd' ?fresh]
    · simp
    case fresh =>
      intro kv hkv
      rw [mapHasKey_append, hfresh kv (List.mem_cons_of_mem hd hkv), Bool.false_or]
      have hne : hd.1 ≠ kv.1 := by
        intro hcon
        exact hni (hcon ▸ List.mem_map.mpr ⟨kv, hkv, rfl⟩)
      simp [mapHasKey, beq_eq_false_iff_ne.mpr hne]

theorem strAppend_left_injective (p : String) :
    Function.Injective (fun s : String => p ++ s) := by
  intro a b hab
  have h := congrArg String.data hab
  rw [String.data_append, String.data_append] at h
  exact String.ext (List.append_cancel_left h)

theorem foldl_tokensEncode (u : List (String × String)) :
    ∀ acc : List (String × String),
      u.foldl (fun labels kv => mapSet labels ("access_token_" ++ kv.1) kv.2) acc =
        (u.map fun kv => (("access_token_" ++ kv.1 : String), kv.2)).foldl mapSetStep acc := by
  induction u with
  | nil => intro acc; rfl
  | cons hd tl ih => intro acc; simp [List.foldl_cons, mapSetStep, ih]

theorem foldl_asEncode (u : List (String × String)) :
    ∀ acc : List (String × String),
      u.foldl (fun labels kv => mapSet labels ("application_service_" ++ kv.1) kv.2) acc =
        (u.map fun kv => (("application_service_" ++ kv.1 : String), kv.2)).foldl mapSetStep acc := by
  induction u with
  | nil => intro acc; rfl
  | cons hd tl ih => intro acc; simp [List.foldl_cons, mapSetStep, ih]

theorem nodup_prefixedKeys (p : String) (u : List (String × String))
    (hnd : (u.map Prod.fst).Nodup) :
    ((u.map fun kv => ((p ++ kv.1 : String), kv.2)).map Prod.fst).Nodup := by
  have h := hnd.map (strAppend_left_injective p)
  rw [List.map_map] at h
  rw [List.map_map]
  exact h

/-- Encoding a credential map is exactly key-prefixing. -/
theorem labelsForTokens_eq (C : List (String × String))
    (hnd : (C.map Prod.fst).Nodup) :
    labelsForTokens C = C.map fun kv => (("access_token_" ++ kv.1 : String), kv.2) := by
  rw [labelsForTokens, foldl_tokensEncode,
    foldl_mapSetStep_append _ [] (nodup_prefixedKeys _ C hnd) (fun kv _ => rfl)]
  simp

/-- Encoding an AS registration map is exactly key-prefixing. -/
theorem labelsForASRegistrations_eq (A : List (String × String))
    (hnd : (A.map Prod.fst).Nodup) :
    labelsForASRegistrations A =
      A.map fun kv => (("application_service_" ++ kv.1 : String), kv.2) := by
  rw [labelsForASRegistrations, foldl_asEncode,
    foldl_mapSetStep_append _ [] (nodup_prefixedKeys _ A hnd) (fun kv _ => rfl)]
  simp

/-- The encoded label map is the concatenation of both prefixed maps:
the two reserved prefixes never collide. -/
theorem encodeLabels_eq (C A : List (String × String))
    (hC : (C.map Prod.fst).Nodup) (hA : (A.map Prod.fst).Nodup) :
    encodeLabels C A =
      (C.map fun kv => (("access_token_" ++ kv.1 : String), kv.2)) ++
        (A.map fun kv => (("application_service_" ++ kv.1 : String), kv.2)) := by
  rw [encodeLabels, mergeLabels, labelsForTokens_eq C hC, labelsForASRegistrations_eq A hA]
  apply foldl_mapSetStep_append _ _ (nodup_prefixedKeys _ A hA)
  intro kv hkv
  obtain ⟨a, _, rfl⟩ := List.mem_map.mp hkv
  rw [mapHasKey, List.any_eq_false]
  intro x hx
  obtain ⟨c, _, rfl⟩ := List.mem_map.mp hx
  simp only [beq_iff_eq]
  exact accessKey_ne_appServiceKey c.1 a.1

/-! ## Decoding -/

theorem tokensFold_skip (l : List (String × String)) :
    ∀ acc : List (String × String),
      (∀ kv ∈ l, goHasPrefix kv.1 "access_token_" = false) →
      l.foldl tokenDecodeStep acc = acc := by
  induction l with
  | nil => intro acc _; rfl
  | cons hd tl ih =>
    intro acc h
    rw [List.foldl_cons, tokenDecodeStep,
      if_neg (by simp [h hd (List.mem_cons_self hd tl)])]
    exact ih acc (fun kv hkv => h kv (List.mem_cons_of_mem hd hkv))

theorem asFold_skip (l : List (String × String)) :
    ∀ acc : List (String × String),
      (∀ kv ∈ l, goHasPrefix kv.1 "application_service_" = false) →
      l.foldl asDecodeStep acc = acc := by
  induction l with
  | nil => intro acc _; rfl
  | cons hd tl ih =>
    intro acc h
    rw [List.foldl_cons, asDecodeStep,
      if_neg (by simp [h hd (List.mem_cons_self hd tl)])]
    exact ih acc (fun kv hkv => h kv (List.mem_cons_of_mem hd hkv))

theorem tokensFold_strip (C : List (String × String)) :
    ∀ acc : List (String × String), (C.map Prod.fst).Nodup →
      (∀ kv ∈ C, mapHasKey acc kv.1 = false) →
      (C.map fun kv => (("access_token_" ++ kv.1 : String), kv.2)).foldl
          tokenDecodeStep acc = acc ++ C := by
  induction C with
  | nil => intro acc _ _; simp
  | cons hd tl ih =>
    intro acc hnd hfresh
    simp only [List.map_cons, List.foldl_cons]
    rw [tokenDecodeStep]
    rw [if_pos (by simp [goHasPrefix_append_self])]
    rw [goTrimPrefix_append_self,
      mapSet_of_hasKey_false acc hd.1 hd.2 (hfresh hd (List.mem_cons_self hd tl))]
    have hnd' : (tl.map Prod.fst).Nodup := (List.nodup_cons.mp (by simpa using hnd)).2
    have hni : hd.1 ∉ tl.map Prod.fst := (List.nodup_cons.mp (by simpa using hnd)).1
    rw [ih (acc ++ [(hd.1, hd.2)]) hnd' ?fresh]
    · simp
    case fresh =>
      intro kv hkv
      rw [mapHasKey_append, hfresh kv (List.mem_cons_of_mem hd hkv), Bool.false_or]
      have hne : hd.1 ≠ kv.1 := by
        intro hcon
        exact hni (hcon ▸ List.mem_map.mpr ⟨kv, hkv, rfl⟩)
      simp [mapHasKey, beq_eq_false_iff_ne.mpr hne]

theorem asFold_strip (A : List (String × String)) :
    ∀ acc : List (String × String), (A.map Prod.fst).Nodup →
      (∀ kv ∈ A, mapHasKey acc kv.1 = false) →
      (A.map fun kv => (("application_service_" ++ kv.1 : String), kv.2)).foldl
          asDecodeStep acc = acc ++ A := by
  induction A with
  | nil => intro acc _ _; simp
  | cons hd tl ih =>
    intro acc hnd hfresh
    simp only [List.map_cons, List.foldl_cons]
    rw [asDecodeStep]
    rw [if_pos (by simp [goHasPrefix_append_self])]
    rw [goTrimPrefix_append_self,
      mapSet_of_hasKey_false acc hd.1 hd.2 (hfresh hd (List.mem_cons_self hd tl))]
    have hnd' : (tl.map Prod.fst).Nodup := (List.nodup_cons.mp (by simpa using hnd)).2
    have hni : hd.1 ∉ tl.map Prod.fst := (List.nodup_cons.mp (by simpa using hnd)).1
    rw [ih (acc ++ [(hd.1, hd.2)]) hnd' ?fresh]
    · simp
    case fresh =>
      intro kv hkv
      rw [mapHasKey_append, hfresh kv (List.mem_cons_of_mem hd hkv), Bool.false_or]
      have hne : hd.1 ≠ kv.1 := by
        intro hcon
        exact hni (hcon ▸ List.mem_map.mpr ⟨kv, hkv, rfl⟩)
      simp [mapHasKey, beq_eq_false_iff_ne.mpr hne]

/-- C1: For every credential map C and application-service map A in
which no key already bears one of the reserved prefixes
(`access_token_`, `application_service_`), decoding the flat label map
produced by encoding C and A yields back exactly (C, A): the codec's
decode is the exact inverse of its encode.  (Key uniqueness is the map
well-formedness condition of Go maps.) -/
theorem codec_decode_inverts_encode (C A : List (String × String))
    (hCk : (C.map Prod.fst).Nodup) (hAk : (A.map Prod.fst).Nodup)
    (_hC : ∀ kv ∈ C, goHasPrefix kv.1 "access_token_" = false ∧
        goHasPrefix kv.1 "application_service_" = false)
    (_hA : ∀ kv ∈ A, goHasPrefix kv.1 "access_token_" = false ∧
        goHasPrefix kv.1 "application_service_" = false) :
    decodeLabels (encodeLabels C A) = (C, A) := by
  rw [decodeLabels, encodeLabels_eq C A hCk hAk, tokensFromLabels,
    asIDToRegistrationFromLabels]
  have htok :
      ((C.map fun kv => (("access_token_" ++ kv.1 : String), kv.2)) ++
        (A.map fun kv => (("application_service_" ++ kv.1 : String), kv.2))).foldl
          tokenDecodeStep [] = C := by
    rw [List.foldl_append,
      tokensFold_strip C [] hCk (fun kv _ => rfl), List.nil_append,
      tokensFold_skip _ C ?noPrefix]
    case noPrefix =>
      intro kv hkv
      obtain ⟨a, _, rfl⟩ := List.mem_map.mp hkv
      exact goHasPrefix_appService_accessToken a.1
  have has :
      ((C.map fun kv => (("access_token_" ++ kv.1 : String), kv.2)) ++
        (A.map fun kv => (("application_service_" ++ kv.1 : String), kv.2))).foldl
          asDecodeStep [] = A := by
    rw [List.foldl_append, asFold_skip _ [] ?noPrefix,
      asFold_strip A [] hAk (fun kv _ => rfl), List.nil_append]
    case noPrefix =>
      intro kv hkv
      obtain ⟨c, _, rfl⟩ := List.mem_map.mp hkv
      exact goHasPrefix_accessToken_appService c.1
  rw [htok, has]

/-- Witness for C1 at a concrete credential map and AS map. -/
theorem codec_decode_inverts_encode_witness :
    decodeLabels (encodeLabels [("alice", "tok")] [("asid", "reg")]) =
      ([("alice", "tok")], [("asid", "reg")]) :=
  codec_decode_inverts_encode [("alice", "tok")] [("asid", "reg")]
    (by decide) (by decide) (by decide) (by decide)

/-! ## C8: field order of the registration document -/

/-- The registration document's lines, in the order the spec fixes:
id, hs_token, as_token, url, sender_localpart, rate_limited, then the
empty users/rooms/aliases namespace lists. -/
def specRegistrationFieldLines (as : ApplicationService) : List String :=
  ["id: " ++ as.ID,
   "hs_token: " ++ as.HSToken,
   "as_token: " ++ as.ASToken,
   "url: '" ++ as.URL ++ "'",
   "sender_localpart: " ++ as.SenderLocalpart,
   "rate_limited: " ++ (if as.RateLimited then "true" else "false"),
   "namespaces:",
   "  users: []",
   "  rooms: []",
   "  aliases: []"]

/-- The document those lines describe: each line followed by a newline,
concatenated in order. -/
def specASRegistrationDoc (as : ApplicationService) : String :=
  (specRegistrationFieldLines as).foldr (fun line acc => line ++ "\n" ++ acc) ""

/-- Merging two adjacent literal pieces of a concatenation. -/
theorem strAppend_left_merge (a b c t : String) (h : a ++ b = c) :
    a ++ (b ++ t) = c ++ t := by
  rw [← String.append_assoc, h]

/-- C8: for every application service, the rendered registration
document (the value of the `application_service_<id>` label and of the
`AS_REGISTRATION_<id>` environment variable) lists its fields in the
fixed order id, hs_token, as_token, url, sender_localpart,
rate_limited, followed by the empty users/rooms/aliases namespace
lists. -/
theorem generateASRegistrationYaml_field_order (as : ApplicationService) :
    generateASRegistrationYaml as = specASRegistrationDoc as := by
  rw [generateASRegistrationYaml, specASRegistrationDoc, specRegistrationFieldLines]
  simp only [List.foldr_cons, List.foldr_nil, String.append_empty, String.append_assoc]
  rw [strAppend_left_merge "'" "\n" "'\n" _ rfl,
    strAppend_left_merge "namespaces:" "\n" "namespaces:\n" _ rfl,
    strAppend_left_merge "  users: []" "\n" "  users: []\n" _ rfl,
    strAppend_left_merge "  rooms: []" "\n" "  rooms: []\n" _ rfl,
    show ("  aliases: []" : String) ++ "\n" = "  aliases: []\n" from rfl]

/-! ## C5: the CreateNetwork contract -/

/-- C5: `CreateNetwork` never returns a nil error together with an
empty network identifier; an empty identifier (with or without a
runtime warning) makes the call fail, while a warning alone is
non-fatal. -/
theorem createNetwork_contract (resp : Except String NetworkCreateResponse)
    (name : String) :
    (∀ id, CreateNetwork resp name = .ok id → id ≠ "") ∧
    (∀ nw, resp = .ok nw → nw.ID = "" →
      ∃ e, CreateNetwork resp name = .error e) ∧
    (∀ nw, resp = .ok nw → nw.Warning ≠ "" → nw.ID ≠ "" →
      CreateNetwork resp name = .ok nw.ID) := by
  refine ⟨?_, ?_, ?_⟩
  · intro id h hid
    subst hid
    cases resp with
    | error e => simp [CreateNetwork] at h
    | ok nw =>
      rw [CreateNetwork] at h
      split at h
      next => simp at h
      next =>
        split at h
        next => simp at h
        next hcond =>
          simp at h
          exact hcond h
  · intro nw hresp hid
    subst hresp
    by_cases hw : nw.Warning = ""
    · exact ⟨name ++ ": unexpected empty ID while creating networkID",
        by simp [CreateNetwork, hw, hid]⟩
    · exact ⟨name ++ ": fatal warning while creating docker network. " ++ nw.Warning,
        by simp [CreateNetwork, hw, hid]⟩
  · intro nw hresp hwarn hid
    subst hresp
    simp [CreateNetwork, hid]

/-- Witness for C5: a runtime warning together with a non-empty
identifier is non-fatal. -/
theorem createNetwork_contract_witness :
    CreateNetwork (.ok ⟨"net1", "overlapping pool"⟩) "bp" = .ok "net1" :=
  (createNetwork_contract (.ok ⟨"net1", "overlapping pool"⟩) "bp").2.2
    ⟨"net1", "overlapping pool"⟩ rfl (by decide) (by decide)

/-! ## C2: partial blueprint commit and unconditional kill -/

/-- Recognizer for `ContainerCommit` calls in a trace. -/
def isCommitEvent : Event → Bool
  | .containerCommit _ _ _ => true
  | _ => false

/-- C2: for a blueprint of two homeservers where the first's
construction succeeds and the second's setup fails, `construct` records
exactly the second's error, its commit pass calls `ContainerCommit`
exactly once — for the first homeserver's container, with the commit
labels — and a kill is still issued for the second homeserver's
container before `construct` returns. -/
theorem construct_partial_commit (nw : NetworkCreateResponse) (bpName e : String)
    (runAccessTokens : String → List (String × String))
    (commitOutcome : String → Option String)
    (r1 r2 : Result)
    (hnwID : nw.ID ≠ "") (hnwWarn : nw.Warning = "")
    (h1 : r1.err = none) (h2 : r2.err = some e)
    (hc1 : commitOutcome r1.containerID = none) :
    (construct bpName (.ok nw) runAccessTokens commitOutcome [r1, r2]).1 = [e] ∧
    (construct bpName (.ok nw) runAccessTokens commitOutcome [r1, r2]).2.filter
        isCommitEvent =
      [Event.containerCommit r1.containerID r1.contextStr
        (commitLabels (runAccessTokens r1.homeserver.Name) r1.homeserver)] ∧
    Event.kill r2.containerID ∈
      (construct bpName (.ok nw) runAccessTokens commitOutcome [r1, r2]).2 := by
  have hcn : CreateNetwork (.ok nw) bpName = .ok nw.ID := by
    simp [CreateNetwork, hnwWarn, hnwID]
  have hlp : constructLoopPhase [r1, r2] =
      ([e], if r2.containerID != "" then
        [Event.printLogs r2.containerID r2.contextStr] else []) := by
    simp [constructLoopPhase, h1, h2]
  have hcp : constructCommitPhase runAccessTokens commitOutcome [r1, r2] =
      ([], [Event.containerCommit r1.containerID r1.contextStr
        (commitLabels (runAccessTokens r1.homeserver.Name) r1.homeserver)]) := by
    simp [constructCommitPhase, h1, h2, hc1]
  simp only [construct, hcn, hlp, hcp]
  refine ⟨rfl, ?_, ?_⟩
  · by_cases hcid : r2.containerID = ""
    · simp [hcid, List.filter_append, isCommitEvent]
    · simp [hcid, List.filter_append, isCommitEvent]
  · by_cases hcid : r2.containerID = ""
    · simp [hcid]
    · simp [hcid]

/-- Witness for C2 at a concrete two-homeserver blueprint outcome. -/
theorem construct_partial_commit_witness :
    (construct "bp" (.ok ⟨"nid", ""⟩) (fun _ => []) (fun _ => none)
      [⟨none, "c1", "bp.hs1", ⟨"hs1", []⟩⟩,
       ⟨some "boom", "c2", "bp.hs2", ⟨"hs2", []⟩⟩]).1 = ["boom"] ∧
    (construct "bp" (.ok ⟨"nid", ""⟩) (fun _ => []) (fun _ => none)
      [⟨none, "c1", "bp.hs1", ⟨"hs1", []⟩⟩,
       ⟨some "boom", "c2", "bp.hs2", ⟨"hs2", []⟩⟩]).2.filter isCommitEvent =
      [Event.containerCommit "c1" "bp.hs1" (commitLabels [] ⟨"hs1", []⟩)] ∧
    Event.kill "c2" ∈
      (construct "bp" (.ok ⟨"nid", ""⟩) (fun _ => []) (fun _ => none)
        [⟨none, "c1", "bp.hs1", ⟨"hs1", []⟩⟩,
         ⟨some "boom", "c2", "bp.hs2", ⟨"hs2", []⟩⟩]).2 :=
  construct_partial_commit ⟨"nid", ""⟩ "bp" "boom" (fun _ => []) (fun _ => none)
    ⟨none, "c1", "bp.hs1", ⟨"hs1", []⟩⟩ ⟨some "boom", "c2", "bp.hs2", ⟨"hs2", []⟩⟩
    (by decide) rfl rfl rfl rfl

/-! ## C6 and C3: the bounded listing poll and network teardown -/

/-- Recognizer for `ImageList` calls in a trace. -/
def isImageListEvent : Event → Bool
  | .imageList _ => true
  | _ => false

theorem foldl_append_all_nil (L : List (List String)) :
    ∀ acc, (∀ es ∈ L, es = []) → L.foldl (fun acc es => acc ++ es) acc = acc := by
  induction L with
  | nil => intro acc _; rfl
  | cons hd tl ih =>
    intro acc h
    rw [List.foldl_cons, h hd (List.mem_cons_self hd tl), List.append_nil]
    exact ih acc (fun es hes => h es (List.mem_cons_of_mem hd hes))

/-- When every listing attempt succeeds with a count below the expected
one, the poll performs exactly `fuel` listing attempts with a 100ms
sleep after each, and reports the images as not found. -/
theorem pollImages_never_converges (listOutcome : Nat → Except String Nat) (n : Nat)
    (h : ∀ j, ∃ c, listOutcome j = .ok c ∧ c < n) :
    ∀ fuel i,
      ((pollImages listOutcome n i fuel).1.filter isImageListEvent).length = fuel ∧
      ((pollImages listOutcome n i fuel).1.filter
        (fun e => e == Event.sleepMs 100)).length = fuel ∧
      (pollImages listOutcome n i fuel).2 = .ok false := by
  intro fuel
  induction fuel with
  | zero => intro i; exact ⟨rfl, rfl, rfl⟩
  | succ fuel ih =>
    intro i
    obtain ⟨c, hc, hlt⟩ := h i
    obtain ⟨ih1, ih2, ih3⟩ := ih (i + 1)
    rw [pollImages, hc]
    simp only [if_pos hlt]
    refine ⟨?_, ?_, by simpa using ih3⟩
    · simpa [List.filter_cons, isImageListEvent] using ih1
    · simpa [List.filter_cons] using ih2

/-- When no listing attempt errors, the poll never calls
`removeNetworks` itself and always reports an ok verdict. -/
theorem pollImages_ok_no_removal (listOutcome : Nat → Except String Nat) (n : Nat)
    (h : ∀ j, ∃ c, listOutcome j = .ok c) :
    ∀ fuel i,
      (∃ b, (pollImages listOutcome n i fuel).2 = .ok b) ∧
      Event.removeNetworksCall ∉ (pollImages listOutcome n i fuel).1 := by
  intro fuel
  induction fuel with
  | zero => intro i; exact ⟨⟨false, rfl⟩, by simp [pollImages]⟩
  | succ fuel ih =>
    intro i
    obtain ⟨c, hc⟩ := h i
    obtain ⟨⟨b, ihb⟩, ihn⟩ := ih (i + 1)
    rw [pollImages, hc]
    by_cases hlt : c < n
    · simp only [if_pos hlt]
      exact ⟨⟨b, by simpa using ihb⟩, by simp [ihn]⟩
    · simp only [if_neg hlt]
      exact ⟨⟨true, rfl⟩, by simp⟩

/-- C6: if every blueprint's construction succeeds but the
label-filtered image listing always reports fewer images than the
expected blueprint count, `Construct` performs exactly 50 polling
attempts, sleeping 100ms after each, and then returns an error rather
than polling indefinitely. -/
theorem construct_polling_bounded (constructErrs : List (List String))
    (listOutcome : Nat → Except String Nat)
    (hempty : ∀ es ∈ constructErrs, es = [])
    (hlow : ∀ j, ∃ c, listOutcome j = .ok c ∧ c < constructErrs.length) :
    ((ConstructBlueprints constructErrs listOutcome).1.filter
      isImageListEvent).length = 50 ∧
    ((ConstructBlueprints constructErrs listOutcome).1.filter
      (fun e => e == Event.sleepMs 100)).length = 50 ∧
    (ConstructBlueprints constructErrs listOutcome).2 =
      some "failed to find built images via ImageList: did they all build ok?" := by
  obtain ⟨h1, h2, h3⟩ :=
    pollImages_never_converges listOutcome constructErrs.length hlow 50 0
  simp only [ConstructBlueprints, foldl_append_all_nil constructErrs [] hempty, h3]
  refine ⟨?_, ?_, rfl⟩
  · simpa [List.filter_append, isImageListEvent] using h1
  · simpa [List.filter_append] using h2

/-- Witness for C6 with one successfully built blueprint whose image
never shows up in the listing. -/
theorem construct_polling_bounded_witness :
    ((ConstructBlueprints [[]] (fun _ => .ok 0)).1.filter
      isImageListEvent).length = 50 ∧
    ((ConstructBlueprints [[]] (fun _ => .ok 0)).1.filter
      (fun e => e == Event.sleepMs 100)).length = 50 ∧
    (ConstructBlueprints [[]] (fun _ => .ok 0)).2 =
      some "failed to find built images via ImageList: did they all build ok?" :=
  construct_polling_bounded [[]] (fun _ => .ok 0) (by decide)
    (fun _ => ⟨0, rfl, by decide⟩)

/-- Counterexample to C3 as stated: with one blueprint built
successfully and a listing that never reaches the expected count,
convergence is never reached and yet `Construct` still destroys the
batch's networks (and then returns an error). -/
theorem construct_removes_networks_without_convergence :
    Event.removeNetworksCall ∈ (ConstructBlueprints [[]] (fun _ => .ok 0)).1 ∧
    (ConstructBlueprints [[]] (fun _ => .ok 0)).2.isSome = true := by decide

/-- C3 as amended: when every blueprint's construction succeeded and no
listing attempt itself errors, the batch's networks are destroyed
exactly once, strictly after every polling attempt (it is the final
runtime call of `Construct`) — but this happens whether or not the
listing converged; only a listing error or a construction error skips
the teardown. -/
theorem construct_removes_networks_after_polling (constructErrs : List (List String))
    (listOutcome : Nat → Except String Nat)
    (hempty : ∀ es ∈ constructErrs, es = [])
    (hok : ∀ j, ∃ c, listOutcome j = .ok c) :
    ∃ evs, (ConstructBlueprints constructErrs listOutcome).1 =
        evs ++ [Event.removeNetworksCall] ∧
      Event.removeNetworksCall ∉ evs := by
  obtain ⟨⟨b, hb⟩, hn⟩ :=
    pollImages_ok_no_removal listOutcome constructErrs.length hok 50 0
  simp only [ConstructBlueprints, foldl_append_all_nil constructErrs [] hempty, hb]
  exact ⟨(pollImages listOutcome constructErrs.length 0 50).1, rfl, hn⟩

/-- Witness for the amended C3 at a listing that never converges. -/
theorem construct_removes_networks_after_polling_witness :
    ∃ evs, (ConstructBlueprints [[]] (fun _ => .ok 0)).1 =
        evs ++ [Event.removeNetworksCall] ∧
      Event.removeNetworksCall ∉ evs :=
  construct_removes_networks_after_polling [[]] (fun _ => .ok 0) (by decide)
    (fun _ => ⟨0, rfl⟩)

/-! ## C4: deployImage hands back the deployment with the poll error -/

theorem pollVersions_some_of_bad (httpGet : Nat → Except String Nat) (url : String) :
    ∀ fuel i e, (∀ j, j < fuel → httpGet (i + j) ≠ .ok 200) →
      ∃ e2, pollVersions httpGet url i fuel (some e) = some e2 := by
  intro fuel
  induction fuel with
  | zero => intro i e _; exact ⟨e, rfl⟩
  | succ fuel ih =>
    intro i e h
    rw [pollVersions]
    cases hg : httpGet i with
    | error msg =>
      apply ih (i + 1)
      intro j hj
      have hs := h (j + 1) (Nat.succ_lt_succ hj)
      rwa [show i + (j + 1) = i + 1 + j by omega] at hs
    | ok c =>
      have hc : c ≠ 200 := by
        intro hcon
        exact h 0 (Nat.succ_pos fuel) (by rw [Nat.add_zero, hg, hcon])
      show ∃ e2, (if c ≠ 200 then pollVersions httpGet url (i + 1) fuel
        (some ("GET " ++ url ++ " => HTTP " ++ toString c)) else none) = some e2
      rw [if_pos hc]
      apply ih (i + 1)
      intro j hj
      have hs := h (j + 1) (Nat.succ_lt_succ hj)
      rwa [show i + (j + 1) = i + 1 + j by omega] at hs

/-- Exhausting the whole `/versions` poll without ever seeing a 200
leaves a terminal `lastErr`. -/
theorem pollVersions_exhausted (httpGet : Nat → Except String Nat) (url : String)
    (fuel : Nat) (hpos : 0 < fuel)
    (h : ∀ j, j < fuel → httpGet j ≠ .ok 200) :
    ∃ e2, pollVersions httpGet url 0 fuel none = some e2 := by
  cases fuel with
  | zero => omega
  | succ f =>
    rw [pollVersions]
    cases hg : httpGet 0 with
    | error msg =>
      apply pollVersions_some_of_bad httpGet url f 1
      intro j hj
      exact h (j + 1) (Nat.succ_lt_succ hj) ∘ (by rw [Nat.add_comm 1 j]; exact id)
    | ok c =>
      have hc : c ≠ 200 := by
        intro hcon
        exact h 0 (Nat.succ_pos f) (by rw [hg, hcon])
      show ∃ e2, (if c ≠ 200 then pollVersions httpGet url (0 + 1) f
        (some ("GET " ++ url ++ " => HTTP " ++ toString c)) else none) = some e2
      rw [if_pos hc]
      apply pollVersions_some_of_bad httpGet url f 1
      intro j hj
      exact h (j + 1) (Nat.succ_lt_succ hj) ∘ (by rw [Nat.add_comm 1 j]; exact id)

/-- C4: when container create, start and inspect succeed and both fixed
ports are published, but every health-check attempt within the
configured iteration bound fails, `deployImage` returns the built
deployment (carrying the container identifier and both base URLs)
together with the terminal error — a non-nil error does not imply no
deployment value. -/
theorem deployImage_returns_deployment_with_error
    (cid : String) (startOutcome : String → Option String)
    (inspectOutcome : String → Except String InspectData)
    (httpGet : Nat → Except String Nat) (imageID contextStr : String)
    (iterations : Nat) (insp : InspectData) (p1 p2 : String)
    (hstart : startOutcome cid = none)
    (hinsp : inspectOutcome cid = .ok insp)
    (hp1 : mapGet insp.Ports "8008/tcp" = some p1)
    (hp2 : mapGet insp.Ports "8448/tcp" = some p2)
    (hpos : 0 < iterations)
    (hbad : ∀ j, j < iterations → httpGet j ≠ .ok 200) :
    ∃ d e,
      deployImage (.ok cid) startOutcome inspectOutcome httpGet imageID
          contextStr iterations = (some d, some e) ∧
        d.ContainerID = cid ∧
        d.BaseURL = "http://" ++ HostnameRunningDocker ++ ":" ++ p1 ∧
        d.FedBaseURL = "https://" ++ HostnameRunningDocker ++ ":" ++ p2 := by
  have e1 : (toString (8008 : Nat) ++ "/tcp" : String) = "8008/tcp" := rfl
  have e2 : (toString (8448 : Nat) ++ "/tcp" : String) = "8448/tcp" := rfl
  have hend : endpoints insp.Ports 8008 8448 =
      .ok ("http://" ++ HostnameRunningDocker ++ ":" ++ p1,
           "https://" ++ HostnameRunningDocker ++ ":" ++ p2) := by
    rw [endpoints, e1, hp1, e2, hp2]
  obtain ⟨elast, hpoll⟩ := pollVersions_exhausted httpGet
    ("http://" ++ HostnameRunningDocker ++ ":" ++ p1 ++ "/_matrix/client/versions")
    iterations hpos hbad
  simp only [deployImage, hstart, hinsp, hend, hpoll]
  exact ⟨_, _, rfl, rfl, rfl, rfl⟩

/-- Witness for C4: one failing health-check attempt still yields a
deployment together with the error. -/
theorem deployImage_returns_deployment_with_error_witness :
    ∃ d e,
      deployImage (.ok "c1") (fun _ => none)
          (fun _ => .ok ⟨[("8008/tcp", "1234"), ("8448/tcp", "5678")], []⟩)
          (fun _ => .error "connection refused") "img" "bp.hs1" 1 = (some d, some e) ∧
        d.ContainerID = "c1" ∧
        d.BaseURL = "http://" ++ HostnameRunningDocker ++ ":" ++ "1234" ∧
        d.FedBaseURL = "https://" ++ HostnameRunningDocker ++ ":" ++ "5678" :=
  deployImage_returns_deployment_with_error "c1" (fun _ => none)
    (fun _ => .ok ⟨[("8008/tcp", "1234"), ("8448/tcp", "5678")], []⟩)
    (fun _ => .error "connection refused") "img" "bp.hs1" 1
    ⟨[("8008/tcp", "1234"), ("8448/tcp", "5678")], []⟩ "1234" "5678"
    rfl rfl (by decide) (by decide) (by decide) (fun _ _ => by simp)

/-! ## C7: the image keep-list -/

/-- With every removal succeeding, the image pass removes exactly the
listed images whose `complement_blueprint` label is not kept. -/
theorem removeImagesLoop_all_ok (keep : List String) (l : List ImageSummary) :
    removeImagesLoop keep (fun _ => none) l =
      ((l.filter fun img =>
          !(keep.contains (mapGetD img.Labels "complement_blueprint"))).map
        fun img => Event.imageRemove img.ID, none) := by
  induction l with
  | nil => rfl
  | cons img rest ih =>
    by_cases hk : keep.contains (mapGetD img.Labels "complement_blueprint") = true
    · have hmem : mapGetD img.Labels "complement_blueprint" ∈ keep := by simpa using hk
      simp [removeImagesLoop, ih, List.filter_cons, hmem]
    · have hk' : keep.contains (mapGetD img.Labels "complement_blueprint") = false :=
        Bool.eq_false_iff.mpr hk
      have hmem : mapGetD img.Labels "complement_blueprint" ∉ keep := by simpa using hk'
      simp [removeImagesLoop, ih, List.filter_cons, hmem]

/-- C7: `Cleanup`'s image pass with keep-list `{"bp1"}` (and a runtime
that accepts every removal) removes no image whose
`complement_blueprint` label equals `bp1` and removes every other
listed complement-labeled image. -/
theorem removeImages_keep_list (imgs : List ImageSummary)
    (hnd : (imgs.map ImageSummary.ID).Nodup) :
    (∀ img ∈ imgs, mapGetD img.Labels "complement_blueprint" = "bp1" →
      Event.imageRemove img.ID ∉
        (removeImages (.ok imgs) ["bp1"] (fun _ => none)).1) ∧
    (∀ img ∈ imgs, mapGetD img.Labels "complement_blueprint" ≠ "bp1" →
      Event.imageRemove img.ID ∈
        (removeImages (.ok imgs) ["bp1"] (fun _ => none)).1) := by
  rw [removeImages, removeImagesLoop_all_ok]
  constructor
  · intro img hmem hlab hin
    obtain ⟨img2, hmem2, hid2⟩ := List.mem_map.mp hin
    have hid : img2.ID = img.ID := by
      simpa using hid2
    have hmem2' : img2 ∈ imgs := List.mem_of_mem_filter hmem2
    have : img2 = img := List.inj_on_of_nodup_map hnd hmem2' hmem hid
    subst this
    have hcond := List.of_mem_filter hmem2
    rw [hlab] at hcond
    simp [List.contains] at hcond
  · intro img hmem hlab
    apply List.mem_map.mpr
    refine ⟨img, List.mem_filter.mpr ⟨hmem, ?_⟩, rfl⟩
    simp [List.contains, hlab]

/-- Witness for C7: a kept image, a differently-labeled image and an
unlabeled image. -/
theorem removeImages_keep_list_witness :
    (∀ img ∈ [(⟨"i1", [("complement_blueprint", "bp1")]⟩ : ImageSummary),
        ⟨"i2", [("complement_blueprint", "bp2")]⟩, ⟨"i3", []⟩],
      mapGetD img.Labels "complement_blueprint" = "bp1" →
      Event.imageRemove img.ID ∉
        (removeImages (.ok [⟨"i1", [("complement_blueprint", "bp1")]⟩,
          ⟨"i2", [("complement_blueprint", "bp2")]⟩, ⟨"i3", []⟩])
          ["bp1"] (fun _ => none)).1) ∧
    (∀ img ∈ [(⟨"i1", [("complement_blueprint", "bp1")]⟩ : ImageSummary),
        ⟨"i2", [("complement_blueprint", "bp2")]⟩, ⟨"i3", []⟩],
      mapGetD img.Labels "complement_blueprint" ≠ "bp1" →
      Event.imageRemove img.ID ∈
        (removeImages (.ok [⟨"i1", [("complement_blueprint", "bp1")]⟩,
          ⟨"i2", [("complement_blueprint", "bp2")]⟩, ⟨"i3", []⟩])
          ["bp1"] (fun _ => none)).1) :=
  removeImages_keep_list
    [⟨"i1", [("complement_blueprint", "bp1")]⟩,
     ⟨"i2", [("complement_blueprint", "bp2")]⟩, ⟨"i3", []⟩]
    (by decide)

/-! ## C10: per-pass abort, Cleanup continues -/

theorem removeContainersLoop_stops (rm : String → Option String)
    (pre : List String) (bad : String) (post : List String) (e : String)
    (hpre : ∀ c ∈ pre, rm c = none) (hbad : rm bad = some e) :
    removeContainersLoop rm (pre ++ bad :: post) =
      (pre.map Event.containerRemove ++ [Event.containerRemove bad], some e) := by
  induction pre with
  | nil => simp [removeContainersLoop, hbad]
  | cons hd tl ih =>
    rw [List.cons_append, removeContainersLoop,
      hpre hd (List.mem_cons_self hd tl),
      ih (fun c hc => hpre c (List.mem_cons_of_mem hd hc))]
    simp

theorem removeNetworksLoop_stops (rm : String → Option String)
    (pre : List String) (bad : String) (post : List String) (e : String)
    (hpre : ∀ n ∈ pre, rm n = none) (hbad : rm bad = some e) :
    removeNetworksLoop rm (pre ++ bad :: post) =
      (pre.map Event.networkRemove ++ [Event.networkRemove bad], some e) := by
  induction pre with
  | nil => simp [removeNetworksLoop, hbad]
  | cons hd tl ih =>
    rw [List.cons_append, removeNetworksLoop,
      hpre hd (List.mem_cons_self hd tl),
      ih (fun n hn => hpre n (List.mem_cons_of_mem hd hn))]
    simp

theorem removeImagesLoop_stops (keep : List String) (rm : String → Option String)
    (pre : List ImageSummary) (bad : ImageSummary) (post : List ImageSummary)
    (e : String)
    (hpre : ∀ img ∈ pre,
      keep.contains (mapGetD img.Labels "complement_blueprint") = false ∧
        rm img.ID = none)
    (hbadKeep : keep.contains (mapGetD bad.Labels "complement_blueprint") = false)
    (hbad : rm bad.ID = some e) :
    removeImagesLoop keep rm (pre ++ bad :: post) =
      (pre.map (fun img => Event.imageRemove img.ID) ++ [Event.imageRemove bad.ID],
        some e) := by
  induction pre with
  | nil =>
    rw [List.nil_append, removeImagesLoop, if_neg (by simpa using hbadKeep), hbad]
    simp
  | cons hd tl ih =>
    obtain ⟨hk, hrm⟩ := hpre hd (List.mem_cons_self hd tl)
    rw [List.cons_append, removeImagesLoop, if_neg (by simpa using hk), hrm,
      ih (fun img himg => hpre img (List.mem_cons_of_mem hd himg))]
    simp

/-- C10: within each of `Cleanup`'s three passes the first per-item
removal failure aborts the remainder of that pass — items after the
failing one are never attempted — while `Cleanup` itself swallows the
pass's error and still runs the next pass: the trace contains all
three truncated passes, and each pass reports its own error. -/
theorem cleanup_passes_abort_and_continue
    (cpre : List String) (cbad : String) (cpost : List String) (ce : String)
    (ipre : List ImageSummary) (ibad : ImageSummary) (ipost : List ImageSummary)
    (ie : String)
    (npre : List String) (nbad : String) (npost : List String) (nerr : String)
    (keep : List String) (rmC rmI rmN : String → Option String)
    (hcpre : ∀ c ∈ cpre, rmC c = none) (hcbad : rmC cbad = some ce)
    (hipre : ∀ img ∈ ipre,
      keep.contains (mapGetD img.Labels "complement_blueprint") = false ∧
        rmI img.ID = none)
    (hikeep : keep.contains (mapGetD ibad.Labels "complement_blueprint") = false)
    (hibad : rmI ibad.ID = some ie)
    (hnpre : ∀ n ∈ npre, rmN n = none) (hnbad : rmN nbad = some nerr) :
    Cleanup (.ok (cpre ++ cbad :: cpost)) rmC (.ok (ipre ++ ibad :: ipost)) keep rmI
        (.ok (npre ++ nbad :: npost)) rmN =
      (cpre.map Event.containerRemove ++ [Event.containerRemove cbad]) ++
      (ipre.map (fun img => Event.imageRemove img.ID) ++ [Event.imageRemove ibad.ID]) ++
      (npre.map Event.networkRemove ++ [Event.networkRemove nbad]) ∧
    (removeContainers (.ok (cpre ++ cbad :: cpost)) rmC).2 = some ce ∧
    (removeImages (.ok (ipre ++ ibad :: ipost)) keep rmI).2 = some ie ∧
    (removeNetworks (.ok (npre ++ nbad :: npost)) rmN).2 = some nerr := by
  rw [Cleanup, removeContainers, removeImages, removeNetworks,
    removeContainersLoop_stops rmC cpre cbad cpost ce hcpre hcbad,
    removeImagesLoop_stops keep rmI ipre ibad ipost ie hipre hikeep hibad,
    removeNetworksLoop_stops rmN npre nbad npost nerr hnpre hnbad]
  exact ⟨rfl, rfl, rfl, rfl⟩

/-- Witness for C10: each pass has one surviving item, one failing item
and one item that is never reached. -/
theorem cleanup_passes_abort_and_continue_witness :
    Cleanup (.ok (["c1"] ++ "c2" :: ["c3"]))
        (fun c => if c = "c2" then some "cerr" else none)
        (.ok ([(⟨"i1", []⟩ : ImageSummary)] ++ (⟨"i2", []⟩ : ImageSummary) ::
          [(⟨"i3", []⟩ : ImageSummary)]))
        [] (fun i => if i = "i2" then some "ierr" else none)
        (.ok (["n1"] ++ "n2" :: ["n3"]))
        (fun n => if n = "n2" then some "nerr" else none) =
      (["c1"].map Event.containerRemove ++ [Event.containerRemove "c2"]) ++
      ([(⟨"i1", []⟩ : ImageSummary)].map (fun img => Event.imageRemove img.ID) ++
        [Event.imageRemove "i2"]) ++
      (["n1"].map Event.networkRemove ++ [Event.networkRemove "n2"]) ∧
    (removeContainers (.ok (["c1"] ++ "c2" :: ["c3"]))
      (fun c => if c = "c2" then some "cerr" else none)).2 = some "cerr" ∧
    (removeImages (.ok ([(⟨"i1", []⟩ : ImageSummary)] ++ (⟨"i2", []⟩ : ImageSummary) ::
        [(⟨"i3", []⟩ : ImageSummary)])) []
      (fun i => if i = "i2" then some "ierr" else none)).2 = some "ierr" ∧
    (removeNetworks (.ok (["n1"] ++ "n2" :: ["n3"]))
      (fun n => if n = "n2" then some "nerr" else none)).2 = some "nerr" :=
  cleanup_passes_abort_and_continue ["c1"] "c2" ["c3"] "cerr"
    [⟨"i1", []⟩] ⟨"i2", []⟩ [⟨"i3", []⟩] "ierr"
    ["n1"] "n2" ["n3"] "nerr" []
    (fun c => if c = "c2" then some "cerr" else none)
    (fun i => if i = "i2" then some "ierr" else none)
    (fun n => if n = "n2" then some "nerr" else none)
    (by decide) (by decide) (by decide) (by decide) (by decide)
    (by decide) (by decide)

/-! ## C9: the extra per-AS credential label -/

theorem asLabelStep_eq (hsName : String) (labels : List (String × String))
    (as0 : ApplicationService) :
    asLabelStep hsName labels as0 =
      mapSet
        (mapSet labels ("application_service_" ++ as0.ID)
          (generateASRegistrationYaml
            { as0 with HSToken := fixedHSToken, ASToken := fixedASToken }))
        ("access_token_@" ++ as0.SenderLocalpart ++ ":" ++ hsName) fixedASToken := rfl

/-- Splitting the AS credential key at the reserved prefix. -/
theorem asAccessKey_split (s n : String) :
    "access_token_@" ++ s ++ ":" ++ n = "access_token_" ++ ("@" ++ s ++ ":" ++ n) := by
  simp only [String.append_assoc]
  rw [strAppend_left_merge "access_token_" "@" "access_token_@" _ rfl]

/-- Later loop iterations never change an `access_token_…` entry away
from the fixed AS token: registration keys live under the other
prefix, and credential keys are only ever (re)written with the fixed
token. -/
theorem asFold_preserves_token (hsName x : String) :
    ∀ (l : List ApplicationService) (acc : List (String × String)),
      mapGet acc ("access_token_" ++ x) = some fixedASToken →
      mapGet (l.foldl (asLabelStep hsName) acc) ("access_token_" ++ x) =
        some fixedASToken := by
  intro l
  induction l with
  | nil => intro acc h; exact h
  | cons a tl ih =>
    intro acc h
    rw [List.foldl_cons]
    apply ih
    rw [asLabelStep_eq]
    by_cases heq : ("access_token_@" ++ a.SenderLocalpart ++ ":" ++ hsName) =
        ("access_token_" ++ x)
    · rw [heq]
      exact mapGet_mapSet_self _ _ _
    · rw [mapGet_mapSet_ne _ _ _ _ heq,
        mapGet_mapSet_ne _ _ _ _ (Ne.symm (accessKey_ne_appServiceKey x a.ID))]
      exact h

theorem asFold_lookup_mem (hsName : String) :
    ∀ (l : List ApplicationService) (acc : List (String × String))
      (as : ApplicationService), as ∈ l →
      mapGet (l.foldl (asLabelStep hsName) acc)
        ("access_token_@" ++ as.SenderLocalpart ++ ":" ++ hsName) =
          some fixedASToken := by
  intro l
  induction l with
  | nil => intro acc as h; exact absurd h (List.not_mem_nil as)
  | cons a tl ih =>
    intro acc as has
    rw [List.foldl_cons]
    rcases List.mem_cons.mp has with heq | hmem
    · subst heq
      rw [asAccessKey_split]
      apply asFold_preserves_token
      rw [← asAccessKey_split, asLabelStep_eq]
      exact mapGet_mapSet_self _ _ _
    · exact ih _ as hmem

theorem nodupKeys_asFold (hsName : String) :
    ∀ (l : List ApplicationService) (acc : List (String × String)),
      (acc.map Prod.fst).Nodup →
      ((l.foldl (asLabelStep hsName) acc).map Prod.fst).Nodup := by
  intro l
  induction l with
  | nil => intro acc h; exact h
  | cons a tl ih =>
    intro acc h
    rw [List.foldl_cons, asLabelStep_eq]
    exact ih _ (nodupKeys_mapSet _ _ _ (nodupKeys_mapSet _ _ _ h))

theorem tokensFold_nonempty :
    ∀ (l : List (String × String)) (acc : List (String × String)),
      ((∃ kv ∈ l, goHasPrefix kv.1 "access_token_" = true) ∨ acc ≠ []) →
      l.foldl tokenDecodeStep acc ≠ [] := by
  intro l
  induction l with
  | nil =>
    intro acc h
    rcases h with ⟨kv, hkv, _⟩ | hacc
    · exact absurd hkv (List.not_mem_nil kv)
    · exact hacc
  | cons hd tl ih =>
    intro acc h
    rw [List.foldl_cons, tokenDecodeStep]
    by_cases hp : goHasPrefix hd.1 "access_token_" = true
    · rw [if_pos hp]
      exact ih _ (Or.inr (mapSet_ne_nil _ _ _))
    · rw [if_neg hp]
      apply ih
      rcases h with ⟨kv, hkv, hkvp⟩ | hacc
      · rcases List.mem_cons.mp hkv with heq | hmem
        · exact absurd (heq ▸ hkvp) hp
        · exact Or.inl ⟨kv, hmem, hkvp⟩
      · exact Or.inr hacc

/-- C9: for every homeserver with an application service, the AS label
encoding also emits the credential key
`access_token_@<sender_localpart>:<homeserver name>`, mapped to the
fixed (overwritten) AS token — so the decoded credential map of a
committed image of such a homeserver is non-empty even when the
instruction runner issued no credentials. -/
theorem labelsForApplicationServices_extra_token (hs : Homeserver)
    (as : ApplicationService) (has : as ∈ hs.ApplicationServices) :
    mapGet (labelsForApplicationServices hs)
      ("access_token_@" ++ as.SenderLocalpart ++ ":" ++ hs.Name) =
        some fixedASToken ∧
    tokensFromLabels (commitLabels [] hs) ≠ [] := by
  have hlook := asFold_lookup_mem hs.Name hs.ApplicationServices [] as has
  have hmerge : commitLabels [] hs = labelsForApplicationServices hs := by
    rw [commitLabels, show labelsForTokens [] = [] from rfl, mergeLabels,
      foldl_mapSetStep_append (labelsForApplicationServices hs) []
        (by rw [labelsForApplicationServices]
            exact nodupKeys_asFold hs.Name hs.ApplicationServices [] (by simp))
        (fun kv _ => rfl)]
    exact List.nil_append _
  refine ⟨by rw [labelsForApplicationServices]; exact hlook, ?_⟩
  rw [hmerge, labelsForApplicationServices, tokensFromLabels]
  apply tokensFold_nonempty
  left
  cases hf : (hs.ApplicationServices.foldl (asLabelStep hs.Name) []).find?
      (fun kv => kv.1 == ("access_token_@" ++ as.SenderLocalpart ++ ":" ++ hs.Name)) with
  | none =>
    rw [mapGet, hf] at hlook
    simp at hlook
  | some kv =>
    refine ⟨kv, List.mem_of_find?_eq_some hf, ?_⟩
    have hpred : kv.1 = "access_token_@" ++ as.SenderLocalpart ++ ":" ++ hs.Name := by
      simpa using List.find?_some hf
    rw [hpred, asAccessKey_split]
    exact goHasPrefix_append_self _ _

/-- Witness for C9 at a homeserver with one application service. -/
theorem labelsForApplicationServices_extra_token_witness :
    mapGet (labelsForApplicationServices
        ⟨"hs1", [⟨"asid", "h", "a", "u", "sender", false⟩]⟩)
      ("access_token_@" ++ "sender" ++ ":" ++ "hs1") = some fixedASToken ∧
    tokensFromLabels (commitLabels []
      ⟨"hs1", [⟨"asid", "h", "a", "u", "sender", false⟩]⟩) ≠ [] :=
  labelsForApplicationServices_extra_token
    ⟨"hs1", [⟨"asid", "h", "a", "u", "sender", false⟩]⟩
    ⟨"asid", "h", "a", "u", "sender", false⟩ (List.mem_cons_self _ _)
